import Mathlib

/-!
Shallow embedding of the product-area classification and source-reference
extraction engine of `src/app/server.py` (functions `detect_product_area`,
`extract_sources`, `_get_context_for_match`, tables `PRODUCT_AREA_RULES` /
`_COMPILED_AREA_RULES` and `_SOURCE_TYPES`).

Python strings are modelled as `List Char`; `re` patterns are modelled by a
small regular-expression engine (Brzozowski derivatives) plus explicit
word-boundary flags, and the extractor's URL/bare-reference patterns are
modelled as deterministic scanners (each one a direct transcription of the
corresponding regex, whose greedy character-class structure makes matching
deterministic).  A Python exception (`TypeError`) is modelled by `Except`.

`\w`, `\s`, `\d` are modelled over their ASCII meaning (all inputs of
interest are ASCII).
-/

namespace SecurityTeeHub

/-- ASCII model of Python's regex `\w` (word character). -/
def wordChar (c : Char) : Bool := c.isAlphanum || c = '_'

/-- ASCII model of Python's regex `\s` / `str.strip()` whitespace. -/
def pySpace (c : Char) : Bool :=
  c = ' ' || c = '\t' || c = '\n' || c = '\r' || c = '\x0b' || c = '\x0c'

/-- Python's `\d`. -/
def pyDigit (c : Char) : Bool := c.isDigit

/-- `needle` is a prefix of `hay` (character-for-character, case sensitive),
the building block of Python's substring test `needle in hay`. -/
def leadEq : List Char → List Char → Bool
  | [], _ => true
  | _ :: _, [] => false
  | a :: as, b :: bs => a = b && leadEq as bs

/-- Python's substring containment `needle in hay`. -/
def subIn (needle : List Char) : List Char → Bool
  | [] => leadEq needle []
  | hay@(_ :: rest) => leadEq needle hay || subIn needle rest

/-- Regular expressions, as used by the compiled keyword patterns.
`cls` is a (decidable) character class; case-insensitive literals are
classes as well. -/
inductive RE where
  | fail : RE
  | eps : RE
  | cls : (Char → Bool) → RE
  | seq : RE → RE → RE
  | alt : RE → RE → RE
  | star : RE → RE

/-- Does the expression accept the empty string? -/
def RE.nullable : RE → Bool
  | .fail => false
  | .eps => true
  | .cls _ => false
  | .seq a b => a.nullable && b.nullable
  | .alt a b => a.nullable || b.nullable
  | .star _ => true

/-- Brzozowski derivative with respect to one character. -/
def RE.deriv : RE → Char → RE
  | .fail, _ => .fail
  | .eps, _ => .fail
  | .cls f, c => if f c then .eps else .fail
  | .seq a b, c =>
      if a.nullable then .alt (.seq (a.deriv c) b) (b.deriv c)
      else .seq (a.deriv c) b
  | .alt a b, c => .alt (a.deriv c) (b.deriv c)
  | .star r, c => .seq (r.deriv c) (.star r)

/-- A compiled pattern: an optional leading `\b`, a boundary-free core, and
an optional trailing `\b`.  Every pattern appearing in the source has this
shape (`\b` only ever occurs at the ends of a pattern). -/
structure Pat where
  lb : Bool
  core : RE
  rb : Bool

/-- Is the character at index `i` a word character? (out of range: no). -/
def isWordAt (s : List Char) (i : Nat) : Bool :=
  match s[i]? with
  | some c => wordChar c
  | none => false

/-- Python's `\b`: position `i` of `s` is a word boundary. -/
def boundary (s : List Char) : Nat → Bool
  | 0 => isWordAt s 0
  | i + 1 => (isWordAt s i) != (isWordAt s (i + 1))

/-- Starting from index `i` (with `suf = s.drop i`), does some slice
`s[i:j]` match `r`, with `j` a word boundary when `rb` is set? -/
def searchFromIdx (r : RE) (full : List Char) (rb : Bool) : Nat → List Char → Bool
  | i, [] => r.nullable && (!rb || boundary full i)
  | i, c :: rest =>
      (r.nullable && (!rb || boundary full i)) ||
        searchFromIdx (r.deriv c) full rb (i + 1) rest

/-- Try every start index `i` (with `suf = s.drop i`), enforcing a leading
boundary when `p.lb` is set: model of `pattern.search(s)` as a Boolean. -/
def searchAllIdx (p : Pat) (s : List Char) : Nat → List Char → Bool
  | i, [] => (!p.lb || boundary s i) && searchFromIdx p.core s p.rb i []
  | i, suf@(_ :: rest) =>
      ((!p.lb || boundary s i) && searchFromIdx p.core s p.rb i suf) ||
        searchAllIdx p s (i + 1) rest

/-- `pattern.search(s)` is truthy. -/
def reSearch (p : Pat) (s : List Char) : Bool := searchAllIdx p s 0 s

/-! Pattern-building helpers (all literals case-insensitive, matching
`re.IGNORECASE` on the compiled rules). -/

/-- Case-insensitive single character. -/
def cic (c : Char) : RE := .cls (fun x => x.toLower = c.toLower)

/-- Case-insensitive literal string. -/
def lit (s : String) : RE := (s.data.map cic).foldr .seq .eps

/-- Concatenation of a list of expressions. -/
def catL (l : List RE) : RE := l.foldr .seq .eps

/-- `\s*`. -/
def wsS : RE := .star (.cls pySpace)

/-- `.` (any character but newline; no DOTALL flag in the source). -/
def dotC : RE := .cls (fun c => c ≠ '\n')

/-- `.*`. -/
def dotS : RE := .star dotC

/-- `r?`. -/
def opt (r : RE) : RE := .alt r .eps

/-- `[- ]`. -/
def dashSpace : RE := .cls (fun c => c = '-' || c = ' ')

/-- Pattern of shape `\b core \b`. -/
def pbb (r : RE) : Pat := ⟨true, r, true⟩

/-- Pattern of shape `\b core` (no trailing boundary). -/
def pb (r : RE) : Pat := ⟨true, r, false⟩

/-- Pattern with no boundary anchors. -/
def pnn (r : RE) : Pat := ⟨false, r, false⟩

/-- One product-area rule of the table `PRODUCT_AREA_RULES`
(`(area_key, display_label, group_key, keyword_patterns)`), with its
patterns in compiled form (`_COMPILED_AREA_RULES`). -/
structure AreaRule where
  key : String
  label : String
  group : Option String
  patterns : List Pat

/-- The ordered rule table (`PRODUCT_AREA_RULES` compiled into
`_COMPILED_AREA_RULES`); each pattern is annotated with the original
regex it transcribes. -/
def PRODUCT_AREA_RULES : List AreaRule := [
  -- Threat Management
  ⟨"siem", "Cloud SIEM", some "threat_management", [
    pbb (catL [lit "cloud", wsS, lit "siem"]),          -- \bcloud\s*siem\b
    pbb (lit "siem"),                                    -- \bsiem\b
    pb (catL [lit "detection", wsS, lit "rule"]),        -- \bdetection\s*rule
    pb (catL [lit "security", wsS, lit "signal"]),       -- \bsecurity\s*signal
    pb (catL [lit "content", wsS, lit "pack"]),          -- \bcontent\s*pack
    pb (catL [lit "log", wsS, lit "detection"]),         -- \blog\s*detection
    pb (catL [lit "threat", wsS, lit "intel"])]⟩,        -- \bthreat\s*intel
  ⟨"aap", "AAP", some "threat_management", [
    pbb (lit "aap"),                                     -- \baap\b
    pbb (lit "appsec"),                                  -- \bappsec\b
    pbb (lit "asm"),                                     -- \basm\b
    pbb (lit "waf"),                                     -- \bwaf\b
    pbb (catL [lit "api", wsS, lit "security"]),         -- \bapi\s*security\b
    pbb (catL [lit "in", dashSpace, lit "app", wsS, lit "waf"]), -- \bin[- ]app\s*waf\b
    pb (catL [lit "ip", wsS, lit "block"]),              -- \bip\s*block
    pbb (lit "passlist"),                                -- \bpasslist\b
    pb (catL [lit "attack", wsS, lit "attempt"]),        -- \battack\s*attempt
    pbb (catL [lit "application", dashSpace, lit "security"]), -- \bapplication[- ]security\b
    pb (catL [lit "app", wsS, .alt (lit "and") (lit "&"), wsS,
      lit "api", wsS, lit "protect"]),                   -- \bapp\s*(and|&)\s*api\s*protect
    pb (catL [lit "security", wsS, lit "trace"]),        -- \bsecurity\s*trace
    pbb (catL [lit "php", dotS, .alt (lit "helper") (lit "sidecar")]), -- \bphp.*(helper|sidecar)\b
    pbb (catL [.alt (lit "sidecar") (lit "helper"), dotS, lit "php"]), -- \b(sidecar|helper).*php\b
    pbb (lit "dd_appsec_enabled")]⟩,                     -- \bdd_appsec_enabled\b
  ⟨"workload_protection", "Workload Protection", some "threat_management", [
    pbb (catL [lit "workload", wsS, lit "protection"]),  -- \bworkload\s*protection\b
    pbb (lit "cws"),                                     -- \bcws\b
    pbb (catL [lit "cloud", wsS, lit "workload", wsS, lit "security"]), -- \bcloud\s*workload\s*security\b
    pbb (catL [lit "runtime", wsS, lit "security"]),     -- \bruntime\s*security\b
    pbb (catL [lit "active", wsS, lit "protection"]),    -- \bactive\s*protection\b
    pbb (catL [lit "system", dashSpace, lit "probe"]),   -- \bsystem[- ]probe\b
    pbb (catL [lit "security", dashSpace, lit "agent"]), -- \bsecurity[- ]agent\b
    pbb (lit "fim"),                                     -- \bfim\b
    pbb (lit "runc"),                                    -- \brunc\b
    pbb (lit "sbom"),                                    -- \bsbom\b
    pbb (catL [lit "agent", wsS, lit "rule"]),           -- \bagent\s*rule\b
    pbb (catL [lit "dynamic", wsS, lit "linker"]),       -- \bdynamic\s*linker\b
    pbb (lit "ebpf")]⟩,                                  -- \bebpf\b
  -- Cloud Security
  ⟨"cspm", "CSPM", some "cloud_security", [
    pbb (lit "cspm"),                                    -- \bcspm\b
    pbb (catL [lit "posture", wsS, lit "management"]),   -- \bposture\s*management\b
    pbb (lit "misconfiguration"),                        -- \bmisconfiguration\b
    pbb (lit "compliance"),                              -- \bcompliance\b
    pbb (lit "benchmark"),                               -- \bbenchmark\b
    pbb (catL [lit "cloud", wsS, lit "configuration"]),  -- \bcloud\s*configuration\b
    pb (catL [lit "cloud", wsS, lit "security", dotS, lit "config"]), -- \bcloud\s*security.*config
    pbb (lit "cis"),                                     -- \bcis\b
    pbb (lit "stig"),                                    -- \bstig\b
    pbb (lit "disa"),                                    -- \bdisa\b
    pb (catL [lit "iac", wsS, lit "finding"]),           -- \biac\s*finding
    pbb (catL [lit "finding", opt (cic 's'), wsS, lit "search"])]⟩, -- \bfindings?\s*search\b
  ⟨"vm", "Vulnerability Mgmt", some "cloud_security", [
    pbb (catL [lit "vulnerability", wsS, lit "management"]), -- \bvulnerability\s*management\b
    pb (lit "vulnerab"),                                 -- \bvulnerab
    pbb (lit "cve"),                                     -- \bcve\b
    pb (catL [lit "agentless", wsS, lit "scann"]),       -- \bagentless\s*scann
    pb (catL [lit "host", wsS, lit "vulnerabilit"]),     -- \bhost\s*vulnerabilit
    pb (catL [lit "container", wsS, lit "image", wsS, lit "vulnerabilit"]), -- \bcontainer\s*image\s*vulnerabilit
    pbb (lit "cvss"),                                    -- \bcvss\b
    pbb (lit "epss"),                                    -- \bepss\b
    pbb (catL [lit "cisa", wsS, lit "kev"])]⟩,           -- \bcisa\s*kev\b
  ⟨"ciem", "CIEM", some "cloud_security", [
    pbb (lit "ciem"),                                    -- \bciem\b
    pb (catL [lit "identity", wsS, lit "risk"]),         -- \bidentity\s*risk
    pbb (catL [lit "entitlement", wsS, lit "management"]), -- \bentitlement\s*management\b
    pb (catL [lit "iam", wsS, lit "access", wsS, lit "analy"]), -- \biam\s*access\s*analy
    pb (catL [lit "privilege", wsS, lit "escalat"]),     -- \bprivilege\s*escalat
    pbb (catL [lit "cross", dashSpace, lit "account", wsS, lit "access"]), -- \bcross[- ]account\s*access\b
    pbb (catL [lit "blast", wsS, lit "radius"]),         -- \bblast\s*radius\b
    pbb (catL [lit "identity", wsS, lit "risk", opt (cic 's')])]⟩, -- \bidentity\s*risks?\b
  -- Code Security
  ⟨"sast", "SAST", some "code_security", [
    pbb (lit "sast"),                                    -- \bsast\b
    pbb (catL [lit "static", wsS,
      .alt (catL [lit "application", wsS, lit "security"]) (lit "analysis")]), -- \bstatic\s*(application\s*security|analysis)\b
    pbb (catL [lit "code", wsS, lit "security", dotS, lit "static"]), -- \bcode\s*security.*static\b
    pbb (catL [lit "static", wsS, lit "code"]),          -- \bstatic\s*code\b
    pbb (catL [lit "hosted", wsS, lit "scanning"])]⟩,    -- \bhosted\s*scanning\b
  ⟨"sca", "SCA", some "code_security", [
    pbb (lit "sca"),                                     -- \bsca\b
    pbb (catL [lit "software", wsS, lit "composition"]), -- \bsoftware\s*composition\b
    pb (lit "dependenc"),                                -- \bdependenc
    pbb (catL [lit "repo", dotS, lit "scanning"]),       -- \brepo.*scanning\b
    pbb (lit "dd_appsec_sca_enabled"),                   -- \bdd_appsec_sca_enabled\b
    pb (catL [lit "license", wsS, lit "risk"]),          -- \blicense\s*risk
    pb (catL [lit "package", wsS, lit "manifest"])]⟩,    -- \bpackage\s*manifest
  ⟨"iast", "IAST", some "code_security", [
    pbb (lit "iast"),                                    -- \biast\b
    pbb (catL [lit "interactive", wsS, lit "application", wsS, lit "security"]), -- \binteractive\s*application\s*security\b
    pbb (lit "dd_iast_enabled"),                         -- \bdd_iast_enabled\b
    pbb (catL [lit "tainted", wsS, lit "data"]),         -- \btainted\s*data\b
    pbb (catL [lit "source", dotS, lit "sink"]),         -- \bsource.*sink\b
    pbb (catL [lit "sink", dotS, lit "source"])]⟩,       -- \bsink.*source\b
  ⟨"other", "Other", none, []⟩]  -- fallback

/-- The early special case `re.search(r"org\s*deletion\s*request", text,
re.IGNORECASE)`. -/
def ORG_DELETION_PAT : Pat :=
  pnn (catL [lit "org", wsS, lit "deletion", wsS, lit "request"])

/-- The rule-scanning loop of `detect_product_area`: skip rules with no
patterns, return the first rule one of whose patterns matches. -/
def classifyRules : List AreaRule → List Char → String
  | [], _ => "other"
  | r :: rs, t =>
      if r.patterns.isEmpty then classifyRules rs t
      else if r.patterns.any (fun p => reSearch p t) then r.key
      else classifyRules rs t

/-- `detect_product_area` of `src/app/server.py`. -/
def detect_product_area (t : List Char) : String :=
  if reSearch ORG_DELETION_PAT t then "other"
  else classifyRules PRODUCT_AREA_RULES t

/-! ## Source-reference extraction -/

/-- One `re.finditer` match: start index, `group(0)`, and `group(1)` when
the pattern has a capture group. -/
structure MatchInfo where
  start : Nat
  text : List Char
  grp : Option (List Char)
  deriving DecidableEq

/-- A scanner: given the character preceding the current position (for a
leading `\b`) and the remaining text, try to match at this position,
returning `group(0)` and the optional `group(1)`.  Each source pattern is
transcribed as one such scanner; their greedy character-class shapes make
Python's backtracking semantics deterministic here. -/
def Scanner : Type := Option Char → List Char → Option (List Char × Option (List Char))

/-- `re.finditer`: scan positions left to right, at a match emit it and
continue at the match end (all our matches are non-empty). -/
def scanAllGo (tryAt : Scanner) : Nat → Nat → Option Char → List Char → List MatchInfo
  | 0, _, _, _ => []
  | _ + 1, _, _, [] => []
  | fuel + 1, i, prev, s@(c :: rest) =>
      match tryAt prev s with
      | some (m, g) =>
          let adv := max m.length 1
          ⟨i, m, g⟩ ::
            scanAllGo tryAt fuel (i + adv)
              (match (s.take adv).getLast? with | some d => some d | none => prev)
              (s.drop adv)
      | none => scanAllGo tryAt fuel (i + 1) (some c) rest

/-- All matches of a scanner over a text, in position order. -/
def scanAll (tryAt : Scanner) (text : List Char) : List MatchInfo :=
  scanAllGo tryAt (text.length + 1) 0 none text

/-- Consume a literal case-insensitively, returning the consumed original
characters and the rest (`re.IGNORECASE` literal part of a URL pattern). -/
def dropLitCi : List Char → List Char → Option (List Char × List Char)
  | [], s => some ([], s)
  | _ :: _, [] => none
  | l :: ls, c :: cs =>
      if l.toLower = c.toLower then
        match dropLitCi ls cs with
        | some (a, r) => some (c :: a, r)
        | none => none
      else none

/-- Consume a literal exactly (case-sensitive patterns). -/
def dropLitCs : List Char → List Char → Option (List Char × List Char)
  | [], s => some ([], s)
  | _ :: _, [] => none
  | l :: ls, c :: cs =>
      if l = c then
        match dropLitCs ls cs with
        | some (a, r) => some (c :: a, r)
        | none => none
      else none

/-- `https?` (case-insensitive, greedy optional `s`; deterministic because
the following literal is `:`). -/
def httpScheme (s : List Char) : Option (List Char × List Char) :=
  match dropLitCi "http".data s with
  | none => none
  | some (m, rest) =>
      match rest with
      | c :: cs => if c.toLower = 's' then some (m ++ [c], cs) else some (m, rest)
      | [] => some (m, [])

/-- Character class `[\w-]` (under `re.IGNORECASE`, same set). -/
def clsWordDash (c : Char) : Bool := wordChar c || c = '-'

/-- Character class `[\w/+.-]`. -/
def clsWiki (c : Char) : Bool := wordChar c || c = '/' || c = '+' || c = '.' || c = '-'

/-- Character class `[\w/._?&#%-]`. -/
def clsUrlTail (c : Char) : Bool :=
  wordChar c || c = '/' || c = '.' || c = '_' || c = '?' || c = '&' || c = '#' ||
    c = '%' || c = '-'

/-- Character class `[\w.-]`. -/
def clsRepo (c : Char) : Bool := wordChar c || c = '.' || c = '-'

/-- Character class `[\w/.-]`. -/
def clsSlackTail (c : Char) : Bool := wordChar c || c = '/' || c = '.' || c = '-'

/-- Character class `[\w_-]` of the Slack channel pattern. -/
def clsChannel (c : Char) : Bool := wordChar c || c = '_' || c = '-'

/-- Scheme + literal + one non-empty greedy class run: the common shape of
the confluence / docs / terraform URL patterns. -/
def urlLitRun (litPart : String) (cls : Char → Bool) : Scanner := fun _ s =>
  match httpScheme s with
  | none => none
  | some (m1, r1) =>
      match dropLitCi litPart.data r1 with
      | none => none
      | some (m2, r2) =>
          let run := r2.takeWhile cls
          if run.isEmpty then none else some (m1 ++ m2 ++ run, none)

/-- `https?://datadoghq\.atlassian\.net/browse/([\w-]+)` (IGNORECASE),
with `group(1)` the trailing `[\w-]+` run. -/
def jiraUrlScan : Scanner := fun _ s =>
  match httpScheme s with
  | none => none
  | some (m1, r1) =>
      match dropLitCi "://datadoghq.atlassian.net/browse/".data r1 with
      | none => none
      | some (m2, r2) =>
          let run := r2.takeWhile clsWordDash
          if run.isEmpty then none else some (m1 ++ m2 ++ run, some run)

/-- `https?://datadoghq\.atlassian\.net/wiki/[\w/+.-]+` (IGNORECASE). -/
def confluenceUrlScan : Scanner :=
  urlLitRun "://datadoghq.atlassian.net/wiki/" clsWiki

/-- `https?://docs\.datadoghq\.com/[\w/._?&#%-]+` (IGNORECASE). -/
def docsUrlScan : Scanner := urlLitRun "://docs.datadoghq.com/" clsUrlTail

/-- `https?://github\.com/[\w.-]+/[\w.-]+[\w/._?&#%-]*` (IGNORECASE). -/
def githubUrlScan : Scanner := fun _ s =>
  match httpScheme s with
  | none => none
  | some (m1, r1) =>
      match dropLitCi "://github.com/".data r1 with
      | none => none
      | some (m2, r2) =>
          let run1 := r2.takeWhile clsRepo
          let r3 := r2.drop run1.length
          if run1.isEmpty then none
          else
            match r3 with
            | '/' :: r4 =>
                let run2 := r4.takeWhile clsRepo
                let r5 := r4.drop run2.length
                if run2.isEmpty then none
                else
                  let run3 := r5.takeWhile clsUrlTail
                  some (m1 ++ m2 ++ run1 ++ '/' :: run2 ++ run3, none)
            | _ => none

/-- `https?://dd\.(?:enterprise\.)?slack\.com/[\w/.-]+` (IGNORECASE);
the optional group is tried greedily first, as Python does. -/
def slackUrlScan : Scanner := fun _ s =>
  match httpScheme s with
  | none => none
  | some (m1, r1) =>
      match dropLitCi "://dd.".data r1 with
      | none => none
      | some (m2, r2) =>
          let tail := fun (acc : List Char) (r : List Char) =>
            match dropLitCi "slack.com/".data r with
            | none => none
            | some (m3, r3) =>
                let run := r3.takeWhile clsSlackTail
                if run.isEmpty then none else some (acc ++ m3 ++ run)
          match dropLitCi "enterprise.".data r2 with
          | some (mE, rE) =>
              match tail (m1 ++ m2 ++ mE) rE with
              | some res => some (res, none)
              | none =>
                  match tail (m1 ++ m2) r2 with
                  | some res => some (res, none)
                  | none => none
          | none =>
              match tail (m1 ++ m2) r2 with
              | some res => some (res, none)
              | none => none

/-- `\b(SCRS-\d+|ZD-\d+|SECENG-\d+)\b` (case-sensitive).  The leading `\b`
amounts to: the previous character is not a word character (the first
pattern character is always a word character); the trailing `\b`: the
character after the maximal digit run is not a word character (shorter
digit runs can never restore the boundary). -/
def jiraBareScan : Scanner := fun prev s =>
  let prevOk := match prev with
    | none => true
    | some c => !wordChar c
  if !prevOk then none
  else
    let tryKey := fun (key : String) =>
      match dropLitCs key.data s with
      | none => none
      | some (m, r) =>
          let digits := r.takeWhile pyDigit
          let rest := r.drop digits.length
          if digits.isEmpty then none
          else
            match rest with
            | [] => some (m ++ digits)
            | c :: _ => if wordChar c then none else some (m ++ digits)
    match tryKey "SCRS-" with
    | some m => some (m, none)
    | none =>
        match tryKey "ZD-" with
        | some m => some (m, none)
        | none =>
            match tryKey "SECENG-" with
            | some m => some (m, none)
            | none => none

/-- `#[\w_-]{2,}` (IGNORECASE, irrelevant for this class). -/
def slackBareScan : Scanner := fun _ s =>
  match s with
  | '#' :: rest =>
      let run := rest.takeWhile clsChannel
      if run.length < 2 then none else some ('#' :: run, none)
  | _ => none

/-- `https?://registry\.terraform\.io/[\w/._?&#%-]+` (IGNORECASE). -/
def terraformUrlScan : Scanner := urlLitRun "://registry.terraform.io/" clsUrlTail

/-- A source type of the `_SOURCE_TYPES` table:
`(key, label, icon, url_patterns, ref_patterns)`. -/
structure SourceType where
  key : String
  label : String
  icon : String
  url_patterns : List Scanner
  ref_patterns : List Scanner

/-- The `_SOURCE_TYPES` table of `src/app/server.py`. -/
def _SOURCE_TYPES : List SourceType := [
  ⟨"jira", "JIRA", "ticket", [jiraUrlScan], [jiraBareScan]⟩,
  ⟨"confluence", "Confluence", "wiki", [confluenceUrlScan], []⟩,
  ⟨"datadog_docs", "Datadog Docs", "docs", [docsUrlScan], []⟩,
  ⟨"github", "GitHub", "code", [githubUrlScan], []⟩,
  ⟨"slack", "Slack", "chat", [slackUrlScan], [slackBareScan]⟩,
  ⟨"terraform", "Terraform", "infra", [terraformUrlScan], []⟩]

/-! ## Context snippets (`_get_context_for_match`) -/

/-- `raw_text.split("\n")` (keeps empty pieces; `""` gives `[""]`). -/
def splitOnNl : List Char → List (List Char)
  | [] => [[]]
  | '\n' :: rest => [] :: splitOnNl rest
  | c :: rest =>
      match splitOnNl rest with
      | l :: ls => (c :: l) :: ls
      | [] => [[c]]

/-- Global `re.sub(r"\[([^\]]+)\]\([^)]+\)", r"\1", line)`: collapse
markdown links to their label.  At a failed `[` the engine advances one
character, as `re.sub` does. -/
def mdLinkSubGo : Nat → List Char → List Char
  | 0, s => s
  | _ + 1, [] => []
  | fuel + 1, '[' :: rest =>
      let lbl := rest.takeWhile (fun c => c ≠ ']')
      let rem := rest.drop lbl.length
      (match lbl, rem with
       | _ :: _, ']' :: '(' :: rest2 =>
           let tgt := rest2.takeWhile (fun c => c ≠ ')')
           let rem2 := rest2.drop tgt.length
           (match tgt, rem2 with
            | _ :: _, ')' :: rest3 => lbl ++ mdLinkSubGo fuel rest3
            | _, _ => '[' :: mdLinkSubGo fuel rest)
       | _, _ => '[' :: mdLinkSubGo fuel rest)
  | fuel + 1, c :: rest => c :: mdLinkSubGo fuel rest

/-- Entry point for the markdown-link collapse. -/
def mdLinkSub (s : List Char) : List Char := mdLinkSubGo (s.length + 1) s

/-- `re.sub(r"[#*>\x60_~]", "", clean)`: drop markdown punctuation. -/
def stripMdPunct (s : List Char) : List Char :=
  s.filter (fun c =>
    !(c = '#' || c = '*' || c = '>' || c = '\x60' || c = '_' || c = '~'))

/-- Python `str.strip()` (whitespace at both ends). -/
def pyStripWs (s : List Char) : List Char :=
  ((s.dropWhile pySpace).reverse.dropWhile pySpace).reverse

/-- Python `str.strip(" -:,.")`. -/
def stripCtxChars (s : List Char) : List Char :=
  let f := fun (c : Char) => c = ' ' || c = '-' || c = ':' || c = ',' || c = '.'
  ((s.dropWhile f).reverse.dropWhile f).reverse

/-- `re.sub(r"\s+", " ", clean)`: collapse whitespace runs to one space. -/
def wsCollapse (s : List Char) : List Char :=
  s.foldr
    (fun c acc =>
      if pySpace c then
        match acc with
        | ' ' :: _ => acc
        | _ => ' ' :: acc
      else c :: acc)
    []

/-- Python `clean.replace(needle, "")`: remove all non-overlapping
occurrences, left to right (identity for an empty needle, which never
arises: all matches are non-empty). -/
def replaceAllGo (needle : List Char) : Nat → List Char → List Char
  | 0, s => s
  | _ + 1, [] => []
  | fuel + 1, s@(c :: rest) =>
      if leadEq needle s then replaceAllGo needle fuel (s.drop needle.length)
      else c :: replaceAllGo needle fuel rest

/-- `clean.replace(needle, "")`. -/
def replaceAll (needle s : List Char) : List Char :=
  if needle.isEmpty then s else replaceAllGo needle (s.length + 1) s

/-- The cleaning pipeline of `_get_context_for_match` applied to the first
line containing the needle, before truncation. -/
def cleanLine (needle line : List Char) : List Char :=
  let c1 := mdLinkSub line
  let c2 := pyStripWs (stripMdPunct c1)
  let c3 := wsCollapse c2
  stripCtxChars (replaceAll needle c3)

/-- Truncation to 150 characters (147 plus a three-character ellipsis). -/
def truncCtx (clean : List Char) : List Char :=
  if clean.length > 150 then clean.take 147 ++ ['.', '.', '.'] else clean

/-- `_get_context_for_match(lines, needle, full_text)` of
`src/app/server.py`: the loop over `lines` returning at the first line
containing the needle is expressed with `List.find?`; `full_text` is
unused, as in the source. -/
def _get_context_for_match (lines : List (List Char)) (needle : List Char)
    (_full_text : List Char) : List Char :=
  match lines.find? (fun l => subIn needle l) with
  | none => []
  | some line => truncCtx (cleanLine needle line)

/-! ## The extraction pipeline (`extract_sources`) -/

/-- One extracted reference `{url, display, context}`. -/
structure Ref where
  url : Option (List Char)
  display : List Char
  context : List Char
  deriving DecidableEq

/-- One output group `{key, label, icon, refs}`. -/
structure SourceGroup where
  key : String
  label : String
  icon : String
  refs : List Ref
  deriving DecidableEq

/-- The modelled Python exception. -/
inductive PyErr where
  | typeError : PyErr
  deriving DecidableEq

/-- `url = match.group(0).rstrip(")")`: drop all trailing `)`. -/
def rstripParen (s : List Char) : List Char :=
  (s.reverse.dropWhile (fun c => c = ')')).reverse

/-- `re.search(r"\[([^\]]+)\]\s*\($", prefix)`: the markdown-link label
when the look-back window ends exactly at `](` (with `$` also matching
just before one final newline).  Leftmost start wins; at each `[` the
label is the run up to the first `]`, then whitespace, then a final `(`. -/
def mdLabelSearch : List Char → Option (List Char)
  | [] => none
  | '[' :: rest =>
      let lbl := rest.takeWhile (fun c => c ≠ ']')
      let rem := rest.drop lbl.length
      (match lbl, rem with
       | _ :: _, ']' :: after =>
           (match after.dropWhile pySpace with
            | ['('] => some lbl
            | ['(', '\n'] => some lbl
            | _ => mdLabelSearch rest)
       | _, _ => mdLabelSearch rest)
  | _ :: rest => mdLabelSearch rest

/-- Display resolution for a URL match: markdown-link label from the
200-character look-back window if present, else the JIRA capture group,
else the (rstripped) URL itself. -/
def urlDisplay (srcKey : String) (text : List Char) (m : MatchInfo)
    (url : List Char) : List Char :=
  let pre := (text.take m.start).drop (m.start - 200)
  match mdLabelSearch pre with
  | some lbl => lbl
  | none =>
      if srcKey = "jira" then
        match m.grp with
        | some g => g
        | none => url
      else url

/-- The reference appended for a URL match. -/
def toUrlRef (srcKey : String) (lines : List (List Char)) (text : List Char)
    (m : MatchInfo) : Ref :=
  let url := rstripParen m.text
  { url := some url
    display := urlDisplay srcKey text m url
    context := _get_context_for_match lines m.text text }

/-- One step of the URL pass: dedup on `(url, display)` before the context
is computed and the reference appended. -/
def urlStep (srcKey : String) (lines : List (List Char)) (text : List Char)
    (st8 : List Ref × List (List Char × List Char)) (m : MatchInfo) :
    List Ref × List (List Char × List Char) :=
  let url := rstripParen m.text
  let display := urlDisplay srcKey text m url
  if (url, display) ∈ st8.2 then st8
  else (st8.1 ++ [toUrlRef srcKey lines text m], st8.2 ++ [(url, display)])

/-- The URL pass of one source type: all URL patterns, each with all its
matches in order, threading the references and the dedup set. -/
def urlPhase (st : SourceType) (lines : List (List Char)) (text : List Char) :
    List Ref × List (List Char × List Char) :=
  st.url_patterns.foldl
    (fun acc pat => (scanAll pat text).foldl (urlStep st.key lines text) acc)
    ([], [])

/-- `url` construction for a bare reference (`if src_key == "jira": ...
elif src_key == "slack" and ref_text.startswith("#"): url = None`). -/
def bareUrlFor (srcKey : String) (t : List Char) : Option (List Char) :=
  if srcKey = "jira" then
    some ("https://datadoghq.atlassian.net/browse/".data ++ t)
  else if srcKey = "slack" && t.head? = some '#' then none
  else none

/-- The reference appended for a bare match. -/
def toBareRef (srcKey : String) (lines : List (List Char)) (text : List Char)
    (m : MatchInfo) : Ref :=
  { url := bareUrlFor srcKey m.text
    display := m.text
    context := _get_context_for_match lines m.text text }

/-- `any(ref_text in r["display"] or ref_text in r["url"] for r in refs)`:
lazy disjunction over the references collected so far; `r["url"]` may be
`None`, in which case Python raises `TypeError` (modelled as `.error`). -/
def checkContained (t : List Char) : List Ref → Except PyErr Bool
  | [] => .ok false
  | r :: rs =>
      if subIn t r.display then .ok true
      else
        match r.url with
        | none => .error .typeError
        | some u => if subIn t u then .ok true else checkContained t rs

/-- One step of the bare-reference pass: containment check (which can
raise), then dedup on `(ref_text, ref_text)`, then append. -/
def bareStep (srcKey : String) (lines : List (List Char)) (text : List Char)
    (st8 : List Ref × List (List Char × List Char)) (m : MatchInfo) :
    Except PyErr (List Ref × List (List Char × List Char)) := do
  let c ← checkContained m.text st8.1
  if c then pure st8
  else if (m.text, m.text) ∈ st8.2 then pure st8
  else pure (st8.1 ++ [toBareRef srcKey lines text m], st8.2 ++ [(m.text, m.text)])

/-- The bare-reference pass of one source type, continuing from the URL
pass's references and dedup set. -/
def barePhase (st : SourceType) (lines : List (List Char)) (text : List Char)
    (init : List Ref × List (List Char × List Char)) :
    Except PyErr (List Ref × List (List Char × List Char)) :=
  st.ref_patterns.foldlM
    (fun acc pat => (scanAll pat text).foldlM (bareStep st.key lines text) acc)
    init

/-- Both passes of one source type: the final reference list. -/
def processType (lines : List (List Char)) (text : List Char)
    (st : SourceType) : Except PyErr (List Ref) := do
  let res ← barePhase st lines text (urlPhase st lines text)
  pure res.1

/-- `extract_sources` of `src/app/server.py`: one group per source type
with at least one reference, in table order. -/
def extract_sources (raw_text : List Char) : Except PyErr (List SourceGroup) :=
  let lines := splitOnNl raw_text
  _SOURCE_TYPES.foldlM
    (fun acc st => do
      let refs ← processType lines raw_text st
      pure (if refs.isEmpty then acc
            else acc ++ [⟨st.key, st.label, st.icon, refs⟩]))
    []

/-- Decidable equality on `Except`, used to evaluate the model at concrete
inputs. -/
instance {ε α : Type} [DecidableEq ε] [DecidableEq α] :
    DecidableEq (Except ε α) := fun x y =>
  match x, y with
  | .error a, .error b =>
      if h : a = b then .isTrue (by rw [h])
      else .isFalse (fun he => by cases he; exact h rfl)
  | .ok a, .ok b =>
      if h : a = b then .isTrue (by rw [h])
      else .isFalse (fun he => by cases he; exact h rfl)
  | .error _, .ok _ => .isFalse (fun he => by cases he)
  | .ok _, .error _ => .isFalse (fun he => by cases he)


/-! ## Derived definitions used by the verification -/

/-- Projection of an extraction result to group keys with the `(url,
display)` pairs of their references. -/
def extractSummary (e : Except PyErr (List SourceGroup)) :
    Except PyErr (List (String × List (Option (List Char) × List Char))) :=
  e.map (fun gs => gs.map (fun g => (g.key, g.refs.map (fun r => (r.url, r.display)))))

/-- The group produced for one source type: `some` exactly when the type
collected at least one reference. -/
def groupFor (lines : List (List Char)) (text : List Char) (st : SourceType) :
    Option SourceGroup :=
  match processType lines text st with
  | .ok [] => none
  | .ok refs => some ⟨st.key, st.label, st.icon, refs⟩
  | .error _ => none

/-- All URL-pattern matches of a source type, pattern by pattern. -/
def allUrlMatches (st : SourceType) (text : List Char) : List MatchInfo :=
  (st.url_patterns.map (fun p => scanAll p text)).flatten

/-- All bare-reference matches of a source type, pattern by pattern. -/
def allBareMatches (st : SourceType) (text : List Char) : List MatchInfo :=
  (st.ref_patterns.map (fun p => scanAll p text)).flatten

/-- The deduplication key of an emitted reference. -/
def refPair (r : Ref) : Option (List Char) × List Char := (r.url, r.display)

/-! ## Concrete inputs of the claims -/

/-- The input of claim C1's failing scenario: two distinct bare Slack
channel references. -/
def c1text : List Char := "#channel-one and #channel-two".data

/-- The input of the end-to-end scenario of claim C6. -/
def c6text : List Char :=
  ("See https://datadoghq.atlassian.net/browse/SCRS-123 for details, " ++
   "also mentioned in SCRS-123 again and in #security-team channel.").data

/-- The text of claim C4's counterexample: it matches patterns of both the
`cspm` rule and the `vm` rule, but also a pattern of the earlier `siem`
rule. -/
def c4cexText : List Char := "siem cspm vulnerability".data

/-- The rule at position `i` of the table (fallback rule when out of
range), used to instantiate the priority theorem concretely. -/
def ruleAt (i : Nat) : AreaRule :=
  (PRODUCT_AREA_RULES.drop i).headD ⟨"other", "Other", none, []⟩

/-- The input of claim C8's counterexample: a docs URL ending in three
dots, removably present in the line, whose context is truncated so that
the appended ellipsis re-creates the literal. -/
def c8text : List Char :=
  ("lorem ipsum dolor sit amet consectetur adipiscing elit sed do eiusmod " ++
   "tempor incididunt ut labore et dolore magna aliq" ++
   "https://docs.datadoghq.com/a... " ++
   "https://docs.datadoghq.com/a tail end here").data

/-- The matched literal of claim C8's counterexample. -/
def c8U : List Char := "https://docs.datadoghq.com/a...".data

/-- The source-type table entry at position `i` (trivial entry when out
of range), used to instantiate theorems concretely. -/
def srcAt (i : Nat) : SourceType :=
  (_SOURCE_TYPES.drop i).headD ⟨"", "", "", [], []⟩

/-- Witness input for C2: the ticket key appears inside a captured URL. -/
def c2text : List Char :=
  "https://datadoghq.atlassian.net/browse/SCRS-9 SCRS-9".data

/-- The references extracted from `c2text` (jira group). -/
def c2refs : List Ref :=
  [⟨some "https://datadoghq.atlassian.net/browse/SCRS-9".data,
    "SCRS-9".data, "SCRS-9".data⟩]

/-- The groups extracted from `c2text`. -/
def c2groups : List SourceGroup := [⟨"jira", "JIRA", "ticket", c2refs⟩]

/-- Witness input for C3: the same ticket key cited twice. -/
def c3text : List Char := "ZD-7 and ZD-7".data

/-- The single (deduplicated) group extracted from `c3text`. -/
def c3group : SourceGroup :=
  ⟨"jira", "JIRA", "ticket",
   [⟨some "https://datadoghq.atlassian.net/browse/ZD-7".data,
     "ZD-7".data, "and".data⟩]⟩

/-- The groups extracted from `c3text`. -/
def c3groups : List SourceGroup := [c3group]

/-- Witness input for C7: a slack reference occurring in the text before
a jira reference. -/
def c7text : List Char := "#aa then SCRS-1".data

/-- The groups extracted from `c7text`: jira before slack, following the
table order, not the text order. -/
def c7groups : List SourceGroup :=
  [⟨"jira", "JIRA", "ticket",
    [⟨some "https://datadoghq.atlassian.net/browse/SCRS-1".data,
      "SCRS-1".data, "aa then".data⟩]⟩,
   ⟨"slack", "Slack", "chat",
    [⟨none, "#aa".data, "aa then SCRS-1".data⟩]⟩]

/-- Witness input for C10: a bare slack channel occurring in the text
before a slack URL. -/
def c10text : List Char := "#chan https://dd.slack.com/archives/C1".data

/-- The slack group extracted from `c10text`: the URL-pass reference
precedes the bare-pass reference, despite the text order. -/
def c10group : SourceGroup :=
  ⟨"slack", "Slack", "chat",
   [⟨some "https://dd.slack.com/archives/C1".data,
     "https://dd.slack.com/archives/C1".data, "chan".data⟩,
    ⟨none, "#chan".data, "chan https://dd.slack.com/archives/C1".data⟩]⟩

/-- The groups extracted from `c10text`. -/
def c10groups : List SourceGroup := [c10group]

/-- The second docs URL of claim C8's counterexample input. -/
def c8u2 : List Char := "https://docs.datadoghq.com/a".data

/-- Projection of an extraction result to `(url, display)` plus whether a
probe string occurs in the reference's context. -/
def extractCtxProbe (needle : List Char) (e : Except PyErr (List SourceGroup)) :
    Except PyErr (List (String × List (Option (List Char) × List Char × Bool))) :=
  e.map (fun gs => gs.map (fun g =>
    (g.key, g.refs.map (fun r => (r.url, r.display, subIn needle r.context)))))

/-! ## Claim theorems -/

/-- C1: the claim states that `extract` returns normally on every input.
The code raises `TypeError` on an input with two distinct bare Slack
channel references: when the second channel's containment check evaluates
`ref_text in r["url"]` against the first channel's reference, whose `url`
is `None`.  This theorem evaluates the model at the failing input. -/
theorem extract_sources_raises_on_two_bare_channels :
    extract_sources c1text = .error .typeError := by decide

set_option synthInstance.maxSize 2048 in
set_option maxRecDepth 8192 in
/-- C6: on the scenario input, `extract` returns exactly two groups: a
jira group with one reference (display `SCRS-123`, url the browse URL;
the bare occurrences are suppressed by containment) and a slack group
with one reference (display `#security-team`, url `None`). -/
theorem extract_sources_end_to_end_scenario :
    extractSummary (extract_sources c6text) =
    .ok [("jira",
            [(some "https://datadoghq.atlassian.net/browse/SCRS-123".data,
              "SCRS-123".data)]),
         ("slack", [(none, "#security-team".data)])] := by decide

/-- C5: any text matching the organization-deletion phrase classifies as
`"other"`, regardless of any other rule. -/
theorem detect_product_area_org_deletion (t : List Char)
    (h : reSearch ORG_DELETION_PAT t = true) :
    detect_product_area t = "other" := by
  unfold detect_product_area
  rw [h]
  rfl

/-- Witness for C5: a concrete deletion request that also contains the
`cspm` keyword. -/
theorem detect_product_area_org_deletion_witness :
    reSearch ORG_DELETION_PAT "Org  Deletion Request about cspm".data = true ∧
    detect_product_area "Org  Deletion Request about cspm".data = "other" :=
  ⟨by decide, detect_product_area_org_deletion _ (by decide)⟩

/-- If no pattern of any listed rule matches, the rule scan falls through
to `"other"`. -/
theorem classifyRules_no_match (rs : List AreaRule) (t : List Char)
    (h : ∀ r ∈ rs, ∀ p ∈ r.patterns, reSearch p t = false) :
    classifyRules rs t = "other" := by
  induction rs with
  | nil => rfl
  | cons r rs ih =>
      have hr : r.patterns.any (fun p => reSearch p t) = false := by
        rw [List.any_eq_false]
        intro p hp
        simp [h r (List.mem_cons_self r rs) p hp]
      have ih' := ih (fun r' hr' p hp => h r' (List.mem_cons_of_mem r hr') p hp)
      by_cases he : r.patterns.isEmpty <;> simp [classifyRules, he, hr, ih']

/-- C9: `classify("")` is `"other"`; any text matched by no rule pattern
and not matching the organization-deletion phrase classifies as
`"other"`; and `extract("")` is the empty sequence. -/
theorem classify_and_extract_fallback :
    detect_product_area "".data = "other" ∧
    (∀ t : List Char, reSearch ORG_DELETION_PAT t = false →
      (∀ r ∈ PRODUCT_AREA_RULES, ∀ p ∈ r.patterns, reSearch p t = false) →
      detect_product_area t = "other") ∧
    extract_sources "".data = .ok [] := by
  refine ⟨by decide, ?_, by decide⟩
  intro t horg h
  unfold detect_product_area
  rw [horg]
  simpa using classifyRules_no_match PRODUCT_AREA_RULES t h

/-- Witness for C9's universally quantified clause, at a concrete text
matched by no rule pattern. -/
theorem classify_and_extract_fallback_witness :
    detect_product_area "zzz qqq".data = "other" :=
  classify_and_extract_fallback.2.1 "zzz qqq".data (by decide) (by decide)

/-- Counterexample to C4 as stated: the `cspm` rule precedes the `vm`
rule and both have a pattern matching the text, yet `classify` does not
return `"cspm"` (it returns `"siem"`, whose rule comes still earlier). -/
theorem detect_product_area_priority_cex :
    (PRODUCT_AREA_RULES.findIdx (fun r => r.key = "cspm") <
      PRODUCT_AREA_RULES.findIdx (fun r => r.key = "vm")) ∧
    ((PRODUCT_AREA_RULES.find? (fun r => r.key = "cspm")).map
      (fun r => r.patterns.any (fun p => reSearch p c4cexText)) = some true) ∧
    ((PRODUCT_AREA_RULES.find? (fun r => r.key = "vm")).map
      (fun r => r.patterns.any (fun p => reSearch p c4cexText)) = some true) ∧
    detect_product_area c4cexText = "siem" ∧
    detect_product_area c4cexText ≠ "cspm" := by decide

/-- If every rule before `r1` fails to match, and some pattern of `r1`
matches, the scan returns `r1.key`. -/
theorem classifyRules_first (pre : List AreaRule) (r1 : AreaRule)
    (rest : List AreaRule) (t : List Char)
    (h1 : r1.patterns.any (fun p => reSearch p t) = true)
    (hpre : ∀ r ∈ pre, r.patterns.any (fun p => reSearch p t) = false) :
    classifyRules (pre ++ r1 :: rest) t = r1.key := by
  induction pre with
  | nil =>
      have he : r1.patterns.isEmpty = false := by
        cases hp : r1.patterns with
        | nil => rw [hp] at h1; simp at h1
        | cons a l => simp [hp]
      unfold classifyRules
      simp [he, h1]
  | cons r pre ih =>
      have hr := hpre r (List.mem_cons_self r pre)
      have ih' := ih (fun r' hr' => hpre r' (List.mem_cons_of_mem r hr'))
      rw [List.cons_append]
      by_cases he : r.patterns.isEmpty <;> simp [classifyRules, he, hr, ih']

/-- C4, amended: if `R1` precedes `R2` in the table, patterns of both
match `t`, no rule *preceding `R1`* matches `t`, and `t` does not match
the organization-deletion phrase, then `classify(t)` returns `R1`'s area
key.  (The last two hypotheses are the amendment; without them an earlier
rule, or the deletion short-circuit, wins, as the counterexample shows.) -/
theorem detect_product_area_first_match_priority (t : List Char)
    (pre rest : List AreaRule) (r1 r2 : AreaRule)
    (htab : PRODUCT_AREA_RULES = pre ++ r1 :: rest)
    (_hr2 : r2 ∈ rest)
    (h1 : r1.patterns.any (fun p => reSearch p t) = true)
    (_h2 : r2.patterns.any (fun p => reSearch p t) = true)
    (hpre : ∀ r ∈ pre, r.patterns.any (fun p => reSearch p t) = false)
    (horg : reSearch ORG_DELETION_PAT t = false) :
    detect_product_area t = r1.key := by
  unfold detect_product_area
  rw [horg, htab]
  simpa using classifyRules_first pre r1 rest t h1 hpre

/-- Witness for the amended C4: on `"cspm vulnerability"`, with `R1` the
`cspm` rule (position 3) and `R2` the `vm` rule (position 4), `classify`
returns `"cspm"`. -/
theorem detect_product_area_first_match_priority_witness :
    detect_product_area "cspm vulnerability".data = (ruleAt 3).key :=
  detect_product_area_first_match_priority "cspm vulnerability".data
    (PRODUCT_AREA_RULES.take 3) (PRODUCT_AREA_RULES.drop 4) (ruleAt 3) (ruleAt 4)
    (by rfl)
    (by
      have h : PRODUCT_AREA_RULES.drop 4 = ruleAt 4 :: PRODUCT_AREA_RULES.drop 5 := rfl
      rw [h]
      exact List.mem_cons_self _ _)
    (by decide) (by decide) (by decide) (by decide)


/-- Unfolding the extraction fold: a successful run appends exactly the
groups of the types that collected references, in table order. -/
theorem extract_fold_ok (lines : List (List Char)) (text : List Char) :
    ∀ (types : List SourceType) (acc gs : List SourceGroup),
    (types.foldlM
      (fun acc st => do
        let refs ← processType lines text st
        pure (if refs.isEmpty then acc
              else acc ++ [(⟨st.key, st.label, st.icon, refs⟩ : SourceGroup)]))
      acc) = .ok gs →
    gs = acc ++ types.filterMap (groupFor lines text) := by
  intro types
  induction types with
  | nil =>
      intro acc gs h
      simp only [List.foldlM_nil] at h
      cases h
      simp
  | cons st types ih =>
      intro acc gs h
      rw [List.foldlM_cons] at h
      cases hp : processType lines text st with
      | error e =>
          rw [hp] at h
          exact absurd
            (show (Except.error e : Except PyErr (List SourceGroup)) = Except.ok gs from h)
            (fun hh => by cases hh)
      | ok refs =>
          rw [hp] at h
          cases refs with
          | nil =>
              have hgs := ih acc gs h
              rw [hgs, List.filterMap_cons]
              simp [groupFor, hp]
          | cons r rs =>
              have hgs :=
                ih (acc ++ [(⟨st.key, st.label, st.icon, r :: rs⟩ : SourceGroup)]) gs h
              rw [hgs, List.filterMap_cons]
              simp [groupFor, hp]

/-- Characterization of a successful extraction: the output is the
filter-map of the static source-type table. -/
theorem extract_sources_char (t : List Char) (gs : List SourceGroup)
    (h : extract_sources t = .ok gs) :
    gs = _SOURCE_TYPES.filterMap (groupFor (splitOnNl t) t) := by
  unfold extract_sources at h
  simpa using extract_fold_ok (splitOnNl t) t _SOURCE_TYPES [] gs h

/-- Reading off a produced group: its references come from `processType`,
its descriptive fields from the table entry, and it is non-empty. -/
theorem groupFor_eq_some (lines : List (List Char)) (text : List Char)
    (st : SourceType) (g : SourceGroup)
    (h : groupFor lines text st = some g) :
    processType lines text st = .ok g.refs ∧ g.key = st.key ∧
      g.label = st.label ∧ g.icon = st.icon ∧ g.refs ≠ [] := by
  unfold groupFor at h
  cases hp : processType lines text st with
  | error e => rw [hp] at h; cases h
  | ok refs =>
      rw [hp] at h
      cases refs with
      | nil => cases h
      | cons r rs => cases h; simp

/-- Every group of a successful extraction belongs to some table entry. -/
theorem mem_extract_ok (t : List Char) (gs : List SourceGroup)
    (g : SourceGroup) (h : extract_sources t = .ok gs) (hg : g ∈ gs) :
    ∃ st ∈ _SOURCE_TYPES,
      processType (splitOnNl t) t st = .ok g.refs ∧ g.key = st.key ∧
        g.refs ≠ [] := by
  rw [extract_sources_char t gs h] at hg
  obtain ⟨st, hst, hsome⟩ := List.mem_filterMap.mp hg
  obtain ⟨h1, h2, _, _, h5⟩ := groupFor_eq_some _ _ st g hsome
  exact ⟨st, hst, h1, h2, h5⟩

/-- C7: a successful extraction returns exactly the source types that
collected at least one reference (every returned group is non-empty,
skipped types produce no group), in the order of the static table
`_SOURCE_TYPES` — not in order of first appearance in the document. -/
theorem extract_sources_groups_in_table_order (t : List Char)
    (gs : List SourceGroup) (h : extract_sources t = .ok gs) :
    gs = _SOURCE_TYPES.filterMap (groupFor (splitOnNl t) t) ∧
    ∀ g ∈ gs, g.refs ≠ [] := by
  refine ⟨extract_sources_char t gs h, fun g hg => ?_⟩
  obtain ⟨st, _, _, _, h5⟩ := mem_extract_ok t gs g h hg
  exact h5


/-! ## Substring lemmas -/

/-- `leadEq` is reflexive. -/
theorem leadEq_refl : ∀ t : List Char, leadEq t t = true
  | [] => rfl
  | c :: t => by simp [leadEq, leadEq_refl t]

/-- Python's `in` finds a needle in itself. -/
theorem subIn_refl (t : List Char) : subIn t t = true := by
  cases t with
  | nil => rfl
  | cons c r => simp [subIn, leadEq_refl]

/-! ## The bare-reference pass never raises silently: analysing its steps -/

/-- When the containment check returns `False`, every already-collected
reference has a display not containing the candidate, a present url, and
a url not containing the candidate. -/
theorem checkContained_ok_false (t : List Char) : ∀ (refs : List Ref),
    checkContained t refs = .ok false →
    ∀ r ∈ refs, subIn t r.display = false ∧
      ∀ u, r.url = some u → subIn t u = false := by
  intro refs
  induction refs with
  | nil => intro _ r hr; cases hr
  | cons r0 rs ih =>
      intro h r hr
      unfold checkContained at h
      by_cases hd : subIn t r0.display = true
      · rw [if_pos hd] at h; simp at h
      · rw [if_neg hd] at h
        cases hu : r0.url with
        | none => rw [hu] at h; simp at h
        | some u =>
            rw [hu] at h
            replace h :
                (if subIn t u = true then Except.ok true
                 else checkContained t rs) = Except.ok false := h
            by_cases hsu : subIn t u = true
            · rw [if_pos hsu] at h; simp at h
            · rw [if_neg hsu] at h
              rcases List.mem_cons.mp hr with rfl | hr'
              · refine ⟨by simpa using hd, fun u' hu' => ?_⟩
                rw [hu] at hu'
                cases hu'
                simpa using hsu
              · exact ih h r hr'

/-- Splitting one bare-pattern fold: a successful run appends a block of
new references, each of them not contained (as display text) in any
display or url present when the fold started. -/
theorem bareFold_split (key : String) (lines : List (List Char))
    (text : List Char) :
    ∀ (ms : List MatchInfo) (st8 out : List Ref × List (List Char × List Char)),
    ms.foldlM (bareStep key lines text) st8 = .ok out →
    ∃ d, out.1 = st8.1 ++ d ∧
      ∀ b ∈ d, ∀ r ∈ st8.1,
        subIn b.display r.display = false ∧
        ∀ u, r.url = some u → subIn b.display u = false := by
  intro ms
  induction ms with
  | nil =>
      intro st8 out h
      simp only [List.foldlM_nil] at h
      cases h
      exact ⟨[], by simp⟩
  | cons m ms ih =>
      intro st8 out h
      rw [List.foldlM_cons] at h
      cases hs : bareStep key lines text st8 m with
      | error e =>
          rw [hs] at h
          exact absurd
            (show (Except.error e : Except PyErr _) = Except.ok out from h)
            (fun hh => by cases hh)
      | ok mid =>
          rw [hs] at h
          replace h : ms.foldlM (bareStep key lines text) mid = .ok out := h
          obtain ⟨d2, hd1, hd2⟩ := ih mid out h
          unfold bareStep at hs
          cases hc : checkContained m.text st8.1 with
          | error e =>
              rw [hc] at hs
              exact absurd
                (show (Except.error e : Except PyErr _) = Except.ok mid from hs)
                (fun hh => by cases hh)
          | ok c =>
              rw [hc] at hs
              cases c with
              | true =>
                  replace hs : (Except.ok st8 : Except PyErr _) = .ok mid := hs
                  cases hs
                  exact ⟨d2, hd1, hd2⟩
              | false =>
                  by_cases hdk : (m.text, m.text) ∈ st8.2
                  · rw [if_pos hdk] at hs
                    replace hs : (Except.ok st8 : Except PyErr _) = .ok mid := hs
                    cases hs
                    exact ⟨d2, hd1, hd2⟩
                  · rw [if_neg hdk] at hs
                    replace hs :
                        (Except.ok
                          (st8.1 ++ [toBareRef key lines text m],
                           st8.2 ++ [(m.text, m.text)]) : Except PyErr _) =
                          .ok mid := hs
                    cases hs
                    refine ⟨toBareRef key lines text m :: d2, ?_, ?_⟩
                    · simpa [List.append_assoc] using hd1
                    · intro b hb r hr
                      rcases List.mem_cons.mp hb with rfl | hb'
                      · exact checkContained_ok_false m.text st8.1 hc r hr
                      · exact hd2 b hb' r (List.mem_append_left _ hr)

/-- Splitting the whole bare pass (all bare patterns in order). -/
theorem barePats_split (key : String) (lines : List (List Char))
    (text : List Char) :
    ∀ (pats : List Scanner) (init out : List Ref × List (List Char × List Char)),
    pats.foldlM
        (fun acc pat => (scanAll pat text).foldlM (bareStep key lines text) acc)
        init = .ok out →
    ∃ d, out.1 = init.1 ++ d ∧
      ∀ b ∈ d, ∀ r ∈ init.1,
        subIn b.display r.display = false ∧
        ∀ u, r.url = some u → subIn b.display u = false := by
  intro pats
  induction pats with
  | nil =>
      intro init out h
      simp only [List.foldlM_nil] at h
      cases h
      exact ⟨[], by simp⟩
  | cons p pats ih =>
      intro init out h
      rw [List.foldlM_cons] at h
      cases hs : (scanAll p text).foldlM (bareStep key lines text) init with
      | error e =>
          rw [hs] at h
          exact absurd
            (show (Except.error e : Except PyErr _) = Except.ok out from h)
            (fun hh => by cases hh)
      | ok mid =>
          rw [hs] at h
          replace h :
              pats.foldlM
                (fun acc pat =>
                  (scanAll pat text).foldlM (bareStep key lines text) acc)
                mid = .ok out := h
          obtain ⟨d1, h11, h12⟩ := bareFold_split key lines text _ init mid hs
          obtain ⟨d2, h21, h22⟩ := ih mid out h
          refine ⟨d1 ++ d2, by simp [h21, h11, List.append_assoc], ?_⟩
          intro b hb r hr
          rcases List.mem_append.mp hb with hb1 | hb2
          · exact h12 b hb1 r hr
          · exact h22 b hb2 r (by rw [h11]; exact List.mem_append_left _ hr)

/-- The references of a processed source type are the URL-pass references
followed by the bare-pass references, none of the latter contained in a
display or url of the former. -/
theorem processType_split (st : SourceType) (lines : List (List Char))
    (text : List Char) (refs : List Ref)
    (h : processType lines text st = .ok refs) :
    ∃ d, refs = (urlPhase st lines text).1 ++ d ∧
      ∀ b ∈ d, ∀ r ∈ (urlPhase st lines text).1,
        subIn b.display r.display = false ∧
        ∀ u, r.url = some u → subIn b.display u = false := by
  unfold processType at h
  cases hb : barePhase st lines text (urlPhase st lines text) with
  | error e =>
      rw [hb] at h
      exact absurd
        (show (Except.error e : Except PyErr _) = Except.ok refs from h)
        (fun hh => by cases hh)
  | ok out =>
      rw [hb] at h
      replace h : (Except.ok out.1 : Except PyErr _) = .ok refs := h
      cases h
      exact barePats_split st.key lines text st.ref_patterns
        (urlPhase st lines text) out hb

/-- C2: if a bare identifier `x` is contained in the display or url of a
reference captured by the URL pass of a source type, then that type's
group in the output of `extract` contains no bare-reference entry whose
display is `x` (the bare entries are the ones after the URL-pass block). -/
theorem extract_no_bare_entry_for_contained_identifier (t x : List Char)
    (st : SourceType) (gs : List SourceGroup) (refs : List Ref)
    (hex : extract_sources t = .ok gs) (hst : st ∈ _SOURCE_TYPES)
    (hproc : processType (splitOnNl t) t st = .ok refs)
    (hx : ∃ r ∈ (urlPhase st (splitOnNl t) t).1,
        subIn x r.display = true ∨ ∃ u, r.url = some u ∧ subIn x u = true) :
    (refs ≠ [] → (⟨st.key, st.label, st.icon, refs⟩ : SourceGroup) ∈ gs) ∧
    ∀ b ∈ refs.drop (urlPhase st (splitOnNl t) t).1.length, b.display ≠ x := by
  obtain ⟨d, hd1, hd2⟩ := processType_split st (splitOnNl t) t refs hproc
  constructor
  · intro hne
    rw [extract_sources_char t gs hex]
    refine List.mem_filterMap.mpr ⟨st, hst, ?_⟩
    unfold groupFor
    rw [hproc]
    cases refs with
    | nil => exact absurd rfl hne
    | cons r rs => rfl
  · intro b hb hbx
    rw [hd1, List.drop_left] at hb
    obtain ⟨r0, hr0, hcase⟩ := hx
    have hprop := hd2 b hb r0 hr0
    rcases hcase with hdisp | ⟨u, hu, hsu⟩
    · rw [hbx] at hprop
      rw [hprop.1] at hdisp
      cases hdisp
    · have := hprop.2 u hu
      rw [hbx] at this
      rw [this] at hsu
      cases hsu

/-- Witness for C2: in
`"https://datadoghq.atlassian.net/browse/SCRS-9 SCRS-9"` the ticket key
`SCRS-9` is contained in the URL reference's display, so the jira group
has no separate bare entry for it. -/
theorem extract_no_bare_entry_witness :
    (c2refs ≠ [] →
      (⟨(srcAt 0).key, (srcAt 0).label, (srcAt 0).icon, c2refs⟩ : SourceGroup)
        ∈ c2groups) ∧
    ∀ b ∈ c2refs.drop (urlPhase (srcAt 0) (splitOnNl c2text) c2text).1.length,
      b.display ≠ "SCRS-9".data :=
  extract_no_bare_entry_for_contained_identifier c2text "SCRS-9".data (srcAt 0)
    c2groups c2refs (by decide)
    (by
      have h : _SOURCE_TYPES = srcAt 0 :: _SOURCE_TYPES.drop 1 := rfl
      rw [h]
      exact List.mem_cons_self _ _)
    (by decide)
    ⟨⟨some "https://datadoghq.atlassian.net/browse/SCRS-9".data,
       "SCRS-9".data, "SCRS-9".data⟩,
     by decide, Or.inl (by decide)⟩


/-- Witness for C7: on `c7text` (a slack mention before a jira key), the
jira group still precedes the slack group, following table order. -/
theorem extract_sources_groups_in_table_order_witness :
    c7groups = _SOURCE_TYPES.filterMap (groupFor (splitOnNl c7text) c7text) ∧
    ∀ g ∈ c7groups, g.refs ≠ [] :=
  extract_sources_groups_in_table_order c7text c7groups (by decide)

/-! ## Deduplication invariant (C3) -/

/-- One URL-pass step preserves: pairwise-distinct `(url, display)` pairs,
and every collected pair being recorded in the dedup set. -/
theorem urlStep_inv (key : String) (lines : List (List Char)) (text : List Char)
    (st8 : List Ref × List (List Char × List Char)) (m : MatchInfo)
    (h1 : st8.1.Pairwise (fun a b => refPair a ≠ refPair b))
    (h2 : ∀ r ∈ st8.1, ∃ u, r.url = some u ∧ (u, r.display) ∈ st8.2) :
    (urlStep key lines text st8 m).1.Pairwise (fun a b => refPair a ≠ refPair b) ∧
    ∀ r ∈ (urlStep key lines text st8 m).1,
      ∃ u, r.url = some u ∧ (u, r.display) ∈ (urlStep key lines text st8 m).2 := by
  by_cases hmem :
      (rstripParen m.text,
       urlDisplay key text m (rstripParen m.text)) ∈ st8.2
  · have hstep : urlStep key lines text st8 m = st8 := by
      simp [urlStep, hmem]
    rw [hstep]
    exact ⟨h1, h2⟩
  · have hstep : urlStep key lines text st8 m =
        (st8.1 ++ [toUrlRef key lines text m],
         st8.2 ++ [(rstripParen m.text,
                    urlDisplay key text m (rstripParen m.text))]) := by
      simp [urlStep, hmem]
    rw [hstep]
    constructor
    · rw [List.pairwise_append]
      refine ⟨h1, List.pairwise_singleton _ _, ?_⟩
      intro a ha b hb
      rw [List.mem_singleton.mp hb]
      obtain ⟨u, hu, hmem2⟩ := h2 a ha
      intro heq
      have hud : (u, a.display) =
          (rstripParen m.text, urlDisplay key text m (rstripParen m.text)) := by
        have h1' : a.url = some (rstripParen m.text) := by
          have := congrArg Prod.fst heq
          simpa [refPair, toUrlRef] using this
        have h2' : a.display = urlDisplay key text m (rstripParen m.text) := by
          have := congrArg Prod.snd heq
          simpa [refPair, toUrlRef] using this
        rw [h1'] at hu
        cases hu
        rw [h2']
      rw [hud] at hmem2
      exact hmem hmem2
    · intro r hr
      rcases List.mem_append.mp hr with hr1 | hr2
      · obtain ⟨u, hu, hm⟩ := h2 r hr1
        exact ⟨u, hu, List.mem_append_left _ hm⟩
      · rw [List.mem_singleton.mp hr2]
        refine ⟨rstripParen m.text, ?_, ?_⟩
        · simp [toUrlRef]
        · refine List.mem_append_right _ ?_
          have : (toUrlRef key lines text m).display =
              urlDisplay key text m (rstripParen m.text) := by
            simp [toUrlRef]
          rw [this]
          exact List.mem_singleton.mpr rfl

/-- The URL-pass fold over one pattern's matches preserves the invariant. -/
theorem urlFold_inv (key : String) (lines : List (List Char)) (text : List Char) :
    ∀ (ms : List MatchInfo) (st8 : List Ref × List (List Char × List Char)),
    st8.1.Pairwise (fun a b => refPair a ≠ refPair b) →
    (∀ r ∈ st8.1, ∃ u, r.url = some u ∧ (u, r.display) ∈ st8.2) →
    (ms.foldl (urlStep key lines text) st8).1.Pairwise
        (fun a b => refPair a ≠ refPair b) ∧
    ∀ r ∈ (ms.foldl (urlStep key lines text) st8).1,
      ∃ u, r.url = some u ∧
        (u, r.display) ∈ (ms.foldl (urlStep key lines text) st8).2 := by
  intro ms
  induction ms with
  | nil => intro st8 h1 h2; exact ⟨h1, h2⟩
  | cons m ms ih =>
      intro st8 h1 h2
      rw [List.foldl_cons]
      obtain ⟨h1', h2'⟩ := urlStep_inv key lines text st8 m h1 h2
      exact ih (urlStep key lines text st8 m) h1' h2'

/-- The whole URL pass produces pairwise-distinct `(url, display)` pairs,
all recorded in the dedup set. -/
theorem urlPhase_inv (st : SourceType) (lines : List (List Char))
    (text : List Char) :
    (urlPhase st lines text).1.Pairwise (fun a b => refPair a ≠ refPair b) ∧
    ∀ r ∈ (urlPhase st lines text).1,
      ∃ u, r.url = some u ∧ (u, r.display) ∈ (urlPhase st lines text).2 := by
  unfold urlPhase
  generalize st.url_patterns = pats
  induction pats using List.reverseRecOn with
  | nil => exact ⟨List.Pairwise.nil, by intro r hr; cases hr⟩
  | append_singleton pats p ih =>
      rw [List.foldl_append, List.foldl_cons, List.foldl_nil]
      exact urlFold_inv st.key lines text (scanAll p text) _ ih.1 ih.2


/-- One bare-pass step preserves pairwise-distinct `(url, display)` pairs:
an appended bare entry's display text is contained in no existing display
(the containment check returned `False`), so in particular it equals no
existing display. -/
theorem bareStep_pairwise (key : String) (lines : List (List Char))
    (text : List Char) (st8 out : List Ref × List (List Char × List Char))
    (m : MatchInfo) (hs : bareStep key lines text st8 m = .ok out)
    (h1 : st8.1.Pairwise (fun a b => refPair a ≠ refPair b)) :
    out.1.Pairwise (fun a b => refPair a ≠ refPair b) := by
  unfold bareStep at hs
  cases hc : checkContained m.text st8.1 with
  | error e =>
      rw [hc] at hs
      exact absurd
        (show (Except.error e : Except PyErr _) = Except.ok out from hs)
        (fun hh => by cases hh)
  | ok c =>
      rw [hc] at hs
      cases c with
      | true =>
          replace hs : (Except.ok st8 : Except PyErr _) = .ok out := hs
          cases hs
          exact h1
      | false =>
          by_cases hdk : (m.text, m.text) ∈ st8.2
          · rw [if_pos hdk] at hs
            replace hs : (Except.ok st8 : Except PyErr _) = .ok out := hs
            cases hs
            exact h1
          · rw [if_neg hdk] at hs
            replace hs :
                (Except.ok
                  (st8.1 ++ [toBareRef key lines text m],
                   st8.2 ++ [(m.text, m.text)]) : Except PyErr _) = .ok out := hs
            cases hs
            rw [List.pairwise_append]
            refine ⟨h1, List.pairwise_singleton _ _, ?_⟩
            intro a ha b hb
            rw [List.mem_singleton.mp hb]
            intro heq
            have hda : a.display = m.text := by
              have := congrArg Prod.snd heq
              simpa [refPair, toBareRef] using this
            have := (checkContained_ok_false m.text st8.1 hc a ha).1
            rw [hda] at this
            rw [subIn_refl m.text] at this
            cases this

/-- The bare-pass fold over one pattern's matches preserves the pairwise
distinctness of `(url, display)` pairs. -/
theorem bareFold_pairwise (key : String) (lines : List (List Char))
    (text : List Char) :
    ∀ (ms : List MatchInfo) (st8 out : List Ref × List (List Char × List Char)),
    ms.foldlM (bareStep key lines text) st8 = .ok out →
    st8.1.Pairwise (fun a b => refPair a ≠ refPair b) →
    out.1.Pairwise (fun a b => refPair a ≠ refPair b) := by
  intro ms
  induction ms with
  | nil =>
      intro st8 out h h1
      simp only [List.foldlM_nil] at h
      cases h
      exact h1
  | cons m ms ih =>
      intro st8 out h h1
      rw [List.foldlM_cons] at h
      cases hs : bareStep key lines text st8 m with
      | error e =>
          rw [hs] at h
          exact absurd
            (show (Except.error e : Except PyErr _) = Except.ok out from h)
            (fun hh => by cases hh)
      | ok mid =>
          rw [hs] at h
          replace h : ms.foldlM (bareStep key lines text) mid = .ok out := h
          exact ih mid out h (bareStep_pairwise key lines text st8 mid m hs h1)

/-- The whole bare pass preserves the pairwise distinctness. -/
theorem barePats_pairwise (key : String) (lines : List (List Char))
    (text : List Char) :
    ∀ (pats : List Scanner) (init out : List Ref × List (List Char × List Char)),
    pats.foldlM
        (fun acc pat => (scanAll pat text).foldlM (bareStep key lines text) acc)
        init = .ok out →
    init.1.Pairwise (fun a b => refPair a ≠ refPair b) →
    out.1.Pairwise (fun a b => refPair a ≠ refPair b) := by
  intro pats
  induction pats with
  | nil =>
      intro init out h h1
      simp only [List.foldlM_nil] at h
      cases h
      exact h1
  | cons p pats ih =>
      intro init out h h1
      rw [List.foldlM_cons] at h
      cases hs : (scanAll p text).foldlM (bareStep key lines text) init with
      | error e =>
          rw [hs] at h
          exact absurd
            (show (Except.error e : Except PyErr _) = Except.ok out from h)
            (fun hh => by cases hh)
      | ok mid =>
          rw [hs] at h
          replace h :
              pats.foldlM
                (fun acc pat =>
                  (scanAll pat text).foldlM (bareStep key lines text) acc)
                mid = .ok out := h
          exact ih mid out h
            (bareFold_pairwise key lines text _ init mid hs h1)

/-- Both passes of a source type produce pairwise-distinct references. -/
theorem processType_pairwise (st : SourceType) (lines : List (List Char))
    (text : List Char) (refs : List Ref)
    (h : processType lines text st = .ok refs) :
    refs.Pairwise (fun a b => refPair a ≠ refPair b) := by
  unfold processType at h
  cases hb : barePhase st lines text (urlPhase st lines text) with
  | error e =>
      rw [hb] at h
      exact absurd
        (show (Except.error e : Except PyErr _) = Except.ok refs from h)
        (fun hh => by cases hh)
  | ok out =>
      rw [hb] at h
      replace h : (Except.ok out.1 : Except PyErr _) = .ok refs := h
      cases h
      exact barePats_pairwise st.key lines text st.ref_patterns
        (urlPhase st lines text) out hb (urlPhase_inv st lines text).1

/-- C3: within a single group of a successful extraction, no two
references share the same `(url, display)` pair — each candidate is
checked against the dedup set (and the bare-containment check) before its
context is computed and the reference appended. -/
theorem extract_refs_no_duplicate_pairs (t : List Char)
    (gs : List SourceGroup) (h : extract_sources t = .ok gs) :
    ∀ g ∈ gs, g.refs.Pairwise
      (fun a b => (a.url, a.display) ≠ (b.url, b.display)) := by
  intro g hg
  obtain ⟨st, _, hproc, _, _⟩ := mem_extract_ok t gs g h hg
  exact processType_pairwise st (splitOnNl t) t g.refs hproc

/-- Witness for C3: the duplicated citation `ZD-7` yields one reference,
and the group's reference pairs are pairwise distinct. -/
theorem extract_refs_no_duplicate_pairs_witness :
    c3group.refs.Pairwise
      (fun a b => (a.url, a.display) ≠ (b.url, b.display)) :=
  extract_refs_no_duplicate_pairs c3text c3groups (by decide) c3group
    (by
      have hh : c3groups = c3group :: [] := rfl
      rw [hh]
      exact List.mem_cons_self _ _)


/-! ## Pass ordering (C10) -/

/-- Every match produced from position `i` onwards starts at or after `i`. -/
theorem scanAllGo_lb (tryAt : Scanner) :
    ∀ (fuel i : Nat) (prev : Option Char) (s : List Char),
    ∀ m ∈ scanAllGo tryAt fuel i prev s, i ≤ m.start := by
  intro fuel
  induction fuel with
  | zero => intro i prev s m hm; simp [scanAllGo] at hm
  | succ fuel ih =>
      intro i prev s m hm
      cases s with
      | nil => simp [scanAllGo] at hm
      | cons c rest =>
          rw [scanAllGo] at hm
          cases htry : tryAt prev (c :: rest) with
          | none =>
              rw [htry] at hm
              exact Nat.le_of_succ_le (ih (i + 1) (some c) rest m hm)
          | some mg =>
              rw [htry] at hm
              rcases List.mem_cons.mp hm with rfl | hm'
              · exact Nat.le_refl _
              · have := ih _ _ _ m hm'
                omega

/-- The matches of a scan are in strictly increasing position order. -/
theorem scanAllGo_sorted (tryAt : Scanner) :
    ∀ (fuel i : Nat) (prev : Option Char) (s : List Char),
    (scanAllGo tryAt fuel i prev s).Pairwise (fun a b => a.start < b.start) := by
  intro fuel
  induction fuel with
  | zero => intro i prev s; simp [scanAllGo]
  | succ fuel ih =>
      intro i prev s
      cases s with
      | nil => simp [scanAllGo]
      | cons c rest =>
          rw [scanAllGo]
          cases htry : tryAt prev (c :: rest) with
          | none => exact ih (i + 1) (some c) rest
          | some mg =>
              refine List.Pairwise.cons ?_ (ih _ _ _)
              intro b hb
              have hlb := scanAllGo_lb tryAt fuel
                (i + max mg.1.length 1)
                (match ((c :: rest).take (max mg.1.length 1)).getLast? with
                 | some d => some d
                 | none => prev)
                ((c :: rest).drop (max mg.1.length 1)) b hb
              have : 1 ≤ max mg.1.length 1 := Nat.le_max_right _ _
              simp only []
              omega

/-- `scanAll` produces matches in strictly increasing position order. -/
theorem scanAll_sorted (tryAt : Scanner) (text : List Char) :
    (scanAll tryAt text).Pairwise (fun a b => a.start < b.start) :=
  scanAllGo_sorted tryAt (text.length + 1) 0 none text

/-- For every entry of the static source-type table, the collected URL
matches and bare matches are each in increasing position order (each
entry has at most one pattern per pass). -/
theorem sourceType_matches_sorted (st : SourceType)
    (hst : st ∈ _SOURCE_TYPES) (t : List Char) :
    (allUrlMatches st t).Pairwise (fun a b => a.start < b.start) ∧
    (allBareMatches st t).Pairwise (fun a b => a.start < b.start) := by
  simp only [_SOURCE_TYPES, List.mem_cons, List.not_mem_nil, or_false] at hst
  rcases hst with rfl | rfl | rfl | rfl | rfl | rfl <;>
    constructor <;>
      simp [allUrlMatches, allBareMatches, scanAll_sorted]

/-- The URL-pass fold appends a block that is a sublist of the matches
mapped to their references (order preserved, duplicates dropped). -/
theorem urlFold_sublist (key : String) (lines : List (List Char))
    (text : List Char) :
    ∀ (ms : List MatchInfo) (st8 : List Ref × List (List Char × List Char)),
    ∃ d, (ms.foldl (urlStep key lines text) st8).1 = st8.1 ++ d ∧
      List.Sublist d (ms.map (toUrlRef key lines text)) := by
  intro ms
  induction ms with
  | nil => intro st8; exact ⟨[], by simp, by simp⟩
  | cons m ms ih =>
      intro st8
      rw [List.foldl_cons]
      by_cases hmem :
          (rstripParen m.text,
           urlDisplay key text m (rstripParen m.text)) ∈ st8.2
      · have hstep : urlStep key lines text st8 m = st8 := by
          simp [urlStep, hmem]
        rw [hstep]
        obtain ⟨d, hd, hs⟩ := ih st8
        exact ⟨d, hd, List.Sublist.cons _ hs⟩
      · have hstep : urlStep key lines text st8 m =
            (st8.1 ++ [toUrlRef key lines text m],
             st8.2 ++ [(rstripParen m.text,
                        urlDisplay key text m (rstripParen m.text))]) := by
          simp [urlStep, hmem]
        rw [hstep]
        obtain ⟨d, hd, hs⟩ := ih
          (st8.1 ++ [toUrlRef key lines text m],
           st8.2 ++ [(rstripParen m.text,
                      urlDisplay key text m (rstripParen m.text))])
        refine ⟨toUrlRef key lines text m :: d, ?_, ?_⟩
        · simpa [List.append_assoc] using hd
        · exact List.Sublist.cons₂ _ hs

/-- The whole URL pass is a sublist of all URL matches mapped to their
references. -/
theorem urlPhase_sublist (st : SourceType) (lines : List (List Char))
    (text : List Char) :
    List.Sublist (urlPhase st lines text).1
      ((allUrlMatches st text).map (toUrlRef st.key lines text)) := by
  unfold urlPhase allUrlMatches
  generalize st.url_patterns = pats
  induction pats using List.reverseRecOn with
  | nil => simp
  | append_singleton pats p ih =>
      rw [List.foldl_append, List.foldl_cons, List.foldl_nil]
      obtain ⟨d, hd, hs⟩ := urlFold_sublist st.key lines text (scanAll p text)
        (pats.foldl
          (fun acc pat => (scanAll pat text).foldl (urlStep st.key lines text) acc)
          ([], []))
      rw [hd]
      rw [List.map_append, List.flatten_append]
      simp only [List.map_cons, List.map_nil, List.flatten_cons,
        List.flatten_nil, List.append_nil, List.map_append]
      exact List.Sublist.append ih hs

/-- The bare-pass fold appends a block that is a sublist of the matches
mapped to their references. -/
theorem bareFold_sublist (key : String) (lines : List (List Char))
    (text : List Char) :
    ∀ (ms : List MatchInfo) (st8 out : List Ref × List (List Char × List Char)),
    ms.foldlM (bareStep key lines text) st8 = .ok out →
    ∃ d, out.1 = st8.1 ++ d ∧
      List.Sublist d (ms.map (toBareRef key lines text)) := by
  intro ms
  induction ms with
  | nil =>
      intro st8 out h
      simp only [List.foldlM_nil] at h
      cases h
      exact ⟨[], by simp, by simp⟩
  | cons m ms ih =>
      intro st8 out h
      rw [List.foldlM_cons] at h
      cases hs : bareStep key lines text st8 m with
      | error e =>
          rw [hs] at h
          exact absurd
            (show (Except.error e : Except PyErr _) = Except.ok out from h)
            (fun hh => by cases hh)
      | ok mid =>
          rw [hs] at h
          replace h : ms.foldlM (bareStep key lines text) mid = .ok out := h
          obtain ⟨d, hd, hsub⟩ := ih mid out h
          unfold bareStep at hs
          cases hc : checkContained m.text st8.1 with
          | error e =>
              rw [hc] at hs
              exact absurd
                (show (Except.error e : Except PyErr _) = Except.ok mid from hs)
                (fun hh => by cases hh)
          | ok c =>
              rw [hc] at hs
              cases c with
              | true =>
                  replace hs : (Except.ok st8 : Except PyErr _) = .ok mid := hs
                  cases hs
                  exact ⟨d, hd, List.Sublist.cons _ hsub⟩
              | false =>
                  by_cases hdk : (m.text, m.text) ∈ st8.2
                  · rw [if_pos hdk] at hs
                    replace hs : (Except.ok st8 : Except PyErr _) = .ok mid := hs
                    cases hs
                    exact ⟨d, hd, List.Sublist.cons _ hsub⟩
                  · rw [if_neg hdk] at hs
                    replace hs :
                        (Except.ok
                          (st8.1 ++ [toBareRef key lines text m],
                           st8.2 ++ [(m.text, m.text)]) : Except PyErr _) =
                          .ok mid := hs
                    cases hs
                    refine ⟨toBareRef key lines text m :: d, ?_, ?_⟩
                    · simpa [List.append_assoc] using hd
                    · exact List.Sublist.cons₂ _ hsub

/-- The whole bare pass appends a sublist of all bare matches mapped to
their references. -/
theorem barePats_sublist (key : String) (lines : List (List Char))
    (text : List Char) :
    ∀ (pats : List Scanner) (init out : List Ref × List (List Char × List Char)),
    pats.foldlM
        (fun acc pat => (scanAll pat text).foldlM (bareStep key lines text) acc)
        init = .ok out →
    ∃ d, out.1 = init.1 ++ d ∧
      List.Sublist d (((pats.map (fun p => scanAll p text)).flatten).map
        (toBareRef key lines text)) := by
  intro pats
  induction pats with
  | nil =>
      intro init out h
      simp only [List.foldlM_nil] at h
      cases h
      exact ⟨[], by simp, by simp⟩
  | cons p pats ih =>
      intro init out h
      rw [List.foldlM_cons] at h
      cases hs : (scanAll p text).foldlM (bareStep key lines text) init with
      | error e =>
          rw [hs] at h
          exact absurd
            (show (Except.error e : Except PyErr _) = Except.ok out from h)
            (fun hh => by cases hh)
      | ok mid =>
          rw [hs] at h
          replace h :
              pats.foldlM
                (fun acc pat =>
                  (scanAll pat text).foldlM (bareStep key lines text) acc)
                mid = .ok out := h
          obtain ⟨d1, h11, h12⟩ := bareFold_sublist key lines text _ init mid hs
          obtain ⟨d2, h21, h22⟩ := ih mid out h
          refine ⟨d1 ++ d2, by simp [h21, h11, List.append_assoc], ?_⟩
          simp only [List.map_cons, List.flatten_cons, List.map_append]
          exact List.Sublist.append h12 h22

/-- C10: in every group of a successful extraction, the references are
the URL-pass block followed by the bare-pass block (regardless of where
the matches occur in the text); each block follows its matches' strictly
increasing position order (duplicates dropped). -/
theorem extract_refs_url_pass_precedes_bare_pass (t : List Char)
    (gs : List SourceGroup) (h : extract_sources t = .ok gs) :
    ∀ g ∈ gs, ∃ st ∈ _SOURCE_TYPES, g.key = st.key ∧
      ∃ us bs, g.refs = us ++ bs ∧
        List.Sublist us
          ((allUrlMatches st t).map (toUrlRef st.key (splitOnNl t) t)) ∧
        List.Sublist bs
          ((allBareMatches st t).map (toBareRef st.key (splitOnNl t) t)) ∧
        (allUrlMatches st t).Pairwise (fun a b => a.start < b.start) ∧
        (allBareMatches st t).Pairwise (fun a b => a.start < b.start) := by
  intro g hg
  obtain ⟨st, hst, hproc, hkey, _⟩ := mem_extract_ok t gs g h hg
  unfold processType at hproc
  cases hb : barePhase st (splitOnNl t) t (urlPhase st (splitOnNl t) t) with
  | error e =>
      rw [hb] at hproc
      exact absurd
        (show (Except.error e : Except PyErr _) = Except.ok g.refs from hproc)
        (fun hh => by cases hh)
  | ok out =>
      rw [hb] at hproc
      replace hproc : (Except.ok out.1 : Except PyErr _) = .ok g.refs := hproc
      have hout : out.1 = g.refs := by injection hproc
      obtain ⟨d, hd1, hd2⟩ := barePats_sublist st.key (splitOnNl t) t
        st.ref_patterns (urlPhase st (splitOnNl t) t) out hb
      rw [hout] at hd1
      obtain ⟨hsu, hsb⟩ := sourceType_matches_sorted st hst t
      exact ⟨st, hst, hkey,
        (urlPhase st (splitOnNl t) t).1, d, hd1,
        urlPhase_sublist st (splitOnNl t) t, hd2, hsu, hsb⟩

/-- Witness for C10: on `c10text` the slack group lists the URL reference
before the bare channel reference, although the channel occurs first in
the text. -/
theorem extract_refs_url_pass_precedes_bare_pass_witness :
    ∃ st ∈ _SOURCE_TYPES, c10group.key = st.key ∧
      ∃ us bs, c10group.refs = us ++ bs ∧
        List.Sublist us ((allUrlMatches st c10text).map
          (toUrlRef st.key (splitOnNl c10text) c10text)) ∧
        List.Sublist bs ((allBareMatches st c10text).map
          (toBareRef st.key (splitOnNl c10text) c10text)) ∧
        (allUrlMatches st c10text).Pairwise (fun a b => a.start < b.start) ∧
        (allBareMatches st c10text).Pairwise (fun a b => a.start < b.start) :=
  extract_refs_url_pass_precedes_bare_pass c10text c10groups (by decide)
    c10group
    (by
      have hh : c10groups = c10group :: [] := rfl
      rw [hh]
      exact List.mem_cons_self _ _)


/-! ## Context bounds and the truncation pitfall (C8) -/

/-- The empty needle occurs in every haystack. -/
theorem subIn_nil_needle : ∀ s : List Char, subIn [] s = true
  | [] => rfl
  | _ :: r => by simp [subIn, leadEq]

/-- Only the empty needle is a prefix of the empty string. -/
theorem leadEq_nil_iff (n : List Char) (h : leadEq n [] = true) : n = [] := by
  cases n with
  | nil => rfl
  | cons c n' => simp [leadEq] at h

/-- A prefix of `a` is a prefix of `a ++ b`. -/
theorem leadEq_append_left : ∀ (n a b : List Char),
    leadEq n a = true → leadEq n (a ++ b) = true := by
  intro n
  induction n with
  | nil => intro a b _; rfl
  | cons c n' ih =>
      intro a b h
      cases a with
      | nil => simp [leadEq] at h
      | cons d a' =>
          rw [List.cons_append]
          simp only [leadEq, Bool.and_eq_true] at h ⊢
          exact ⟨h.1, ih a' b h.2⟩

/-- An occurrence in `a` is an occurrence in `a ++ b`. -/
theorem subIn_append_left : ∀ (a b n : List Char),
    subIn n a = true → subIn n (a ++ b) = true := by
  intro a
  induction a with
  | nil =>
      intro b n h
      have hn : n = [] := leadEq_nil_iff n (by simpa [subIn] using h)
      rw [hn]
      exact subIn_nil_needle b
  | cons c a' ih =>
      intro b n h
      rw [List.cons_append]
      have h' : leadEq n (c :: a') = true ∨ subIn n a' = true := by
        simpa [subIn] using h
      rcases h' with hl | hr
      · have := leadEq_append_left n (c :: a') b hl
        rw [List.cons_append] at this
        simp [subIn, this]
      · simp [subIn, ih b n hr]

/-- An occurrence in a prefix is an occurrence in the whole string. -/
theorem subIn_take (n s : List Char) (k : Nat)
    (h : subIn n (s.take k) = true) : subIn n s = true := by
  have := subIn_append_left (s.take k) (s.drop k) n h
  rwa [List.take_append_drop] at this

/-- A prefix of `a ++ d` is a prefix of `a`, or reaches into `d`. -/
theorem leadEq_append_cases : ∀ (n a d : List Char),
    leadEq n (a ++ d) = true → leadEq n a = true ∨ ∃ c ∈ n, c ∈ d := by
  intro n
  induction n with
  | nil => intro a d _; exact Or.inl rfl
  | cons c n' ih =>
      intro a d h
      cases a with
      | nil =>
          cases d with
          | nil => simp [leadEq] at h
          | cons e d' =>
              simp only [List.nil_append, leadEq, Bool.and_eq_true,
                decide_eq_true_eq] at h
              exact Or.inr ⟨c, List.mem_cons_self _ _,
                by rw [h.1]; exact List.mem_cons_self _ _⟩
      | cons b a' =>
          rw [List.cons_append] at h
          simp only [leadEq, Bool.and_eq_true] at h
          rcases ih a' d h.2 with hl | ⟨c0, hc0, hc0d⟩
          · exact Or.inl (by simp [leadEq, h.1, hl])
          · exact Or.inr ⟨c0, List.mem_cons_of_mem _ hc0, hc0d⟩

/-- A non-empty needle occurring in `d` has a character in `d`. -/
theorem subIn_mem (n : List Char) (hne : n ≠ []) : ∀ d : List Char,
    subIn n d = true → ∃ c ∈ n, c ∈ d := by
  intro d
  induction d with
  | nil =>
      intro h
      exact absurd (leadEq_nil_iff n (by simpa [subIn] using h)) hne
  | cons e d' ih =>
      intro h
      have h' : leadEq n (e :: d') = true ∨ subIn n d' = true := by
        simpa [subIn] using h
      rcases h' with hl | hr
      · cases n with
        | nil => exact absurd rfl hne
        | cons c n' =>
            simp only [leadEq, Bool.and_eq_true, decide_eq_true_eq] at hl
            exact ⟨c, List.mem_cons_self _ _,
              by rw [hl.1]; exact List.mem_cons_self _ _⟩
      · obtain ⟨c, hc, hcd⟩ := ih hr
        exact ⟨c, hc, List.mem_cons_of_mem _ hcd⟩

/-- An occurrence in `a ++ d` lies in `a`, or the needle has a character
in `d`. -/
theorem subIn_append_cases : ∀ (a n d : List Char),
    subIn n (a ++ d) = true → subIn n a = true ∨ ∃ c ∈ n, c ∈ d := by
  intro a
  induction a with
  | nil =>
      intro n d h
      by_cases hn : n = []
      · subst hn
        exact Or.inl (subIn_nil_needle [])
      · exact Or.inr (subIn_mem n hn d (by simpa using h))
  | cons b a' ih =>
      intro n d h
      rw [List.cons_append] at h
      have h' : leadEq n (b :: (a' ++ d)) = true ∨ subIn n (a' ++ d) = true := by
        simpa [subIn] using h
      rcases h' with hl | hr
      · rcases leadEq_append_cases n (b :: a') d
          (by rwa [List.cons_append]) with hl2 | hex
        · exact Or.inl (by simp [subIn, hl2])
        · exact Or.inr hex
      · rcases ih n d hr with hl2 | hex
        · exact Or.inl (by simp [subIn, hl2])
        · exact Or.inr hex

/-- A context snippet is never longer than 147 characters plus the
3-character ellipsis. -/
theorem get_context_length_le (lines : List (List Char))
    (needle ft : List Char) :
    (_get_context_for_match lines needle ft).length ≤ 150 := by
  unfold _get_context_for_match
  cases hf : lines.find? (fun l => subIn needle l) with
  | none => simp
  | some line =>
      show (truncCtx (cleanLine needle line)).length ≤ 150
      unfold truncCtx
      by_cases hl : (cleanLine needle line).length > 150
      · rw [if_pos hl]
        have hmin : min 147 (cleanLine needle line).length = 147 :=
          Nat.min_eq_left (by omega)
        rw [List.length_append, List.length_take, hmin]
        simp
      · rw [if_neg hl]
        omega

/-- Every reference produced by a source type's passes carries a context
computed by `_get_context_for_match`, hence of length at most 150. -/
theorem processType_ctx_le (st : SourceType) (lines : List (List Char))
    (text : List Char) (refs : List Ref)
    (h : processType lines text st = .ok refs) :
    ∀ r ∈ refs, r.context.length ≤ 150 := by
  unfold processType at h
  cases hb : barePhase st lines text (urlPhase st lines text) with
  | error e =>
      rw [hb] at h
      exact absurd
        (show (Except.error e : Except PyErr _) = Except.ok refs from h)
        (fun hh => by cases hh)
  | ok out =>
      rw [hb] at h
      replace h : (Except.ok out.1 : Except PyErr _) = .ok refs := h
      have hout : out.1 = refs := by injection h
      obtain ⟨d, hd1, hdsub⟩ := barePats_sublist st.key lines text
        st.ref_patterns (urlPhase st lines text) out hb
      rw [hout] at hd1
      intro r hr
      rw [hd1] at hr
      rcases List.mem_append.mp hr with hr1 | hr2
      · have hrm := (urlPhase_sublist st lines text).subset hr1
        obtain ⟨m, _, hm⟩ := List.mem_map.mp hrm
        have hc : r.context = _get_context_for_match lines m.text text := by
          rw [← hm]
          simp [toUrlRef]
        rw [hc]
        exact get_context_length_le lines m.text text
      · have hrm := hdsub.subset hr2
        obtain ⟨m, _, hm⟩ := List.mem_map.mp hrm
        have hc : r.context = _get_context_for_match lines m.text text := by
          rw [← hm]
          simp [toBareRef]
        rw [hc]
        exact get_context_length_le lines m.text text


/-- C8, amended: (i) every reference context in `extract`'s output has
length at most 150 (147 characters plus the 3-character ellipsis);
(ii) `_get_context_for_match` always returns at most 150 characters;
(iii) when no line contains the literal, the context is empty;
(iv) when the literal was removably present (the cleaned line with the
literal removed no longer contains it), the context does not contain the
literal — *provided* the cleaned line was not truncated, or the literal
contains no `.` (the amendment: the appended `...` of a truncated context
can re-create a literal ending in dots, as the counterexample shows). -/
theorem context_snippet_bounds :
    (∀ (t : List Char) (gs : List SourceGroup), extract_sources t = .ok gs →
      ∀ g ∈ gs, ∀ r ∈ g.refs, r.context.length ≤ 150) ∧
    (∀ (lines : List (List Char)) (needle ft : List Char),
      (_get_context_for_match lines needle ft).length ≤ 150) ∧
    (∀ (lines : List (List Char)) (needle ft : List Char),
      (∀ l ∈ lines, subIn needle l = false) →
      _get_context_for_match lines needle ft = []) ∧
    (∀ (lines : List (List Char)) (needle ft line : List Char),
      lines.find? (fun l => subIn needle l) = some line →
      subIn needle (cleanLine needle line) = false →
      ((cleanLine needle line).length ≤ 150 ∨
        needle.all (fun c => c ≠ '.')) →
      subIn needle (_get_context_for_match lines needle ft) = false) := by
  refine ⟨?_, ?_, ?_, ?_⟩
  · intro t gs h g hg r hr
    obtain ⟨st, _, hproc, _, _⟩ := mem_extract_ok t gs g h hg
    exact processType_ctx_le st (splitOnNl t) t g.refs hproc r hr
  · exact get_context_length_le
  · intro lines needle ft h
    unfold _get_context_for_match
    have hf : lines.find? (fun l => subIn needle l) = none :=
      List.find?_eq_none.mpr (fun x hx => by simp [h x hx])
    rw [hf]
  · intro lines needle ft line hfind h2 hor
    unfold _get_context_for_match
    rw [hfind]
    show subIn needle (truncCtx (cleanLine needle line)) = false
    unfold truncCtx
    by_cases hl : (cleanLine needle line).length > 150
    · rw [if_pos hl]
      rcases hor with hle | hall
      · omega
      · cases hvalue : subIn needle
            (List.take 147 (cleanLine needle line) ++ ['.', '.', '.']) with
        | false => rfl
        | true =>
            exfalso
            rcases subIn_append_cases (List.take 147 (cleanLine needle line))
                needle ['.', '.', '.'] hvalue with hsub | ⟨c, hcn, hcd⟩
            · have := subIn_take needle (cleanLine needle line) 147 hsub
              rw [h2] at this
              cases this
            · have hcdot : c = '.' := by simpa using hcd
              have := List.all_eq_true.mp hall c hcn
              rw [hcdot] at this
              simp at this
    · rw [if_neg hl]
      exact h2

/-- Witness for C8's clauses at a concrete line: the removably-present
literal `ZD-3` does not occur in the (untruncated) context. -/
theorem context_snippet_bounds_witness :
    subIn "ZD-3".data
      (_get_context_for_match (splitOnNl "see ZD-3 ok".data) "ZD-3".data
        "see ZD-3 ok".data) = false :=
  context_snippet_bounds.2.2.2 (splitOnNl "see ZD-3 ok".data) "ZD-3".data
    "see ZD-3 ok".data "see ZD-3 ok".data (by decide) (by decide)
    (Or.inl (by decide))

set_option synthInstance.maxSize 4096 in
set_option maxRecDepth 16384 in
/-- Counterexample to C8 as stated: on `c8text` the docs URL `c8U`
(ending in three dots) is removably present in its line — after cleaning
and removal the line no longer contains it — yet the truncated context of
its own reference contains the literal again, because the appended
ellipsis re-creates it. -/
theorem context_contains_removable_literal_cex :
    extractCtxProbe c8U (extract_sources c8text) =
      .ok [("datadog_docs",
            [(some c8U, c8U, true), (some c8u2, c8u2, false)])] ∧
    subIn c8U (cleanLine c8U c8text) = false ∧
    subIn c8U c8text = true := by
  refine ⟨by decide, by decide, by decide⟩

end SecurityTeeHub
